import Mathlib

/-!
Shallow embedding of the core networking layer of the `aluminum` repository
(libchatty noise codec stack, the p2p relay service, the client connection
manager and the per-peer session), together with theorems settling the
frozen claims about it.

Conventions:
* Machine bytes and sizes are `Nat`; buffers are `List Nat`.
* Fallible Rust code is modelled with the `Out` outcome type below, which
  distinguishes a normal return, an `Err` return, and a panic (an
  `unwrap`/index failure aborting the task).
* External cryptographic primitives (the snow AEAD, BLAKE3, the
  ed25519→x25519 conversion) are modelled as abstract deterministic
  functions; every statement proved below depends only on the properties
  the surrounding repository code itself relies on (determinism, the
  16-byte AEAD tag overhead, tag checking), never on curve or hash
  internals.
-/

namespace Aluminum

/-- Outcome of executing a fallible Rust function: a normal return,
an `Err` result returned to the caller, or a panic (`unwrap` of a
`None`/`Err`, or an out-of-bounds slice index). -/
inductive Out (α : Type) where
  | ok : α → Out α
  | err : Out α
  | panic : Out α
deriving DecidableEq, Repr

/-! ## The noise codec stack (libchatty/src/noise_codec.rs)

`NoiseFrameCodec` wraps a `LengthDelimitedCodec` with a `u16` length field
around a snow `TransportState`; `NoiseCodec` wraps a default
`LengthDelimitedCodec` (4-byte length field, 8 MiB max frame) around a
chunking loop over `NoiseFrameCodec`. -/

/-- Tag length of the ChaChaPoly AEAD used by snow (16 bytes). -/
def TAGLEN : Nat := 16

/-- Maximum noise message length enforced by snow (65535 bytes). -/
def MAXMSGLEN : Nat := 65535

/-- Snow `TransportState`, reduced to the data the codec claims depend on:
the symmetric session key and the per-direction nonce counter. -/
structure TransportState where
  key : Nat
  nonce : Nat
deriving DecidableEq, Repr

/-- Model of the AEAD authentication tag: an abstract deterministic
16-byte function of key, nonce and plaintext. Its only properties used
below are determinism and its 16-byte length. -/
def aeadTag (key nonce : Nat) (payload : List Nat) : List Nat :=
  List.replicate TAGLEN ((key + nonce + payload.length + payload.foldr (· + ·) 0) % 256)

/-- Model of snow `TransportState::write_message`: fails when the payload
plus the 16-byte tag exceeds 65535 bytes (the snow message limit, which is
also the size of the 65535-byte output buffer the codec passes in);
otherwise emits ciphertext of length `payload + 16` and bumps the nonce.
The payload itself is carried through unchanged: the AEAD keystream is
abstracted away, which is sound for every claim below since none depends
on ciphertext contents beyond length and tag. -/
def writeMessage (st : TransportState) (payload : List Nat) :
    Out (TransportState × List Nat) :=
  if payload.length + TAGLEN > MAXMSGLEN then Out.err
  else Out.ok ({ st with nonce := st.nonce + 1 },
               payload ++ aeadTag st.key st.nonce payload)

/-- Model of snow `TransportState::read_message`: rejects messages longer
than 65535 or shorter than the tag, recomputes the tag over the carried
plaintext and fails on mismatch; on success strips the tag and bumps the
nonce. -/
def readMessage (st : TransportState) (msg : List Nat) :
    Out (TransportState × List Nat) :=
  if msg.length > MAXMSGLEN then Out.err
  else if msg.length < TAGLEN then Out.err
  else
    let payload := msg.take (msg.length - TAGLEN)
    let tag := msg.drop (msg.length - TAGLEN)
    if tag = aeadTag st.key st.nonce payload then
      Out.ok ({ st with nonce := st.nonce + 1 }, payload)
    else Out.err

/-- Big-endian byte encoding of `n` into `w` bytes (low `w` bytes of `n`),
as written by `LengthDelimitedCodec`'s `put_uint`. -/
def toBeBytes : Nat → Nat → List Nat
  | 0, _ => []
  | w + 1, n => toBeBytes w (n / 256) ++ [n % 256]

/-- Big-endian byte decoding, as read by `LengthDelimitedCodec`. -/
def fromBeBytes (l : List Nat) : Nat :=
  l.foldl (fun acc b => acc * 256 + b) 0

/-- The 2-byte big-endian parse done inline by `NoiseCodec::decode`
(`u16::from_be_bytes(frames[..2])`). -/
def fromBe16 (a b : Nat) : Nat := a * 256 + b

/-- Model of `LengthDelimitedCodec::encode` with a `fieldLen`-byte length
field and `maxLen` maximum frame length: errors when the payload exceeds
`maxLen`, else prepends the truncated big-endian length. -/
def lengthDelimEncode (fieldLen maxLen : Nat) (data : List Nat) : Out (List Nat) :=
  if data.length > maxLen then Out.err
  else Out.ok (toBeBytes fieldLen (data.length % 256 ^ fieldLen) ++ data)

/-- Model of `LengthDelimitedCodec::decode` on a buffer `src`: yields
`none` while the frame is incomplete, errors when the parsed length
exceeds `maxLen`, and otherwise returns the frame and the unread rest of
the buffer. -/
def lengthDelimDecode (fieldLen maxLen : Nat) (src : List Nat) :
    Out (Option (List Nat × List Nat)) :=
  if src.length < fieldLen then Out.ok none
  else
    let n := fromBeBytes (src.take fieldLen)
    if n > maxLen then Out.err
    else if src.length < fieldLen + n then Out.ok none
    else Out.ok (some ((src.drop fieldLen).take n, src.drop (fieldLen + n)))

/-- Model of `NoiseFrameCodec::encode` (noise_codec.rs lines 24-33):
`write_message` into a 65535-byte buffer, `.unwrap()` (a snow failure
therefore panics), then `u16`-length-delimited framing. -/
def noiseFrameEncode (st : TransportState) (data : List Nat) :
    Out (TransportState × List Nat) :=
  match writeMessage st data with
  | Out.ok (st', ct) =>
    match lengthDelimEncode 2 8388608 ct with
    | Out.ok bs => Out.ok (st', bs)
    | Out.err => Out.err
    | Out.panic => Out.panic
  | Out.err => Out.panic
  | Out.panic => Out.panic

/-- Model of `NoiseFrameCodec::decode` (noise_codec.rs lines 40-55):
`u16`-length-delimited deframing (propagating its `Err` with the `?`
operator, yielding `none` on an incomplete frame), then `read_message`
with `.unwrap()` — a decryption failure therefore panics rather than
returning `Err`. -/
def noiseFrameDecode (st : TransportState) (src : List Nat) :
    Out (TransportState × Option (List Nat) × List Nat) :=
  match lengthDelimDecode 2 8388608 src with
  | Out.ok none => Out.ok (st, none, src)
  | Out.ok (some (frame, rest)) =>
    match readMessage st frame with
    | Out.ok (st', pt) => Out.ok (st', some pt, rest)
    | Out.err => Out.panic
    | Out.panic => Out.panic
  | Out.err => Out.err
  | Out.panic => Out.panic

/-- Model of the slice iterator `data.chunks(65535)` used by
`NoiseCodec::encode`, via structural fuel (one unit per chunk; `fuel ≥
data.length` always suffices since every step consumes at least one
element, and every call below passes exactly `data.length`). -/
def chunksAux : Nat → List Nat → List (List Nat)
  | _, [] => []
  | 0, a :: t => [a :: t]
  | fuel + 1, a :: t => (a :: t).take 65535 :: chunksAux fuel ((a :: t).drop 65535)

/-- Rust `data.chunks(65535)`: successive chunks of at most 65535 bytes;
empty input yields no chunks. -/
def chunks65535 (data : List Nat) : List (List Nat) :=
  chunksAux data.length data

/-- The chunk loop of `NoiseCodec::encode`: encode each chunk through
`NoiseFrameCodec` into a growing buffer, propagating errors with `?`. -/
def noiseChunksEncode : TransportState → List (List Nat) → Out (TransportState × List Nat)
  | st, [] => Out.ok (st, [])
  | st, c :: cs =>
    match noiseFrameEncode st c with
    | Out.ok (st', f) =>
      match noiseChunksEncode st' cs with
      | Out.ok (st'', fs) => Out.ok (st'', f ++ fs)
      | Out.err => Out.err
      | Out.panic => Out.panic
    | Out.err => Out.err
    | Out.panic => Out.panic

/-- Model of `NoiseCodec::encode` (noise_codec.rs lines 79-93): chunk the
payload at 65535 bytes, run each chunk through `NoiseFrameCodec::encode`,
then wrap the concatenated records in one outer default
`LengthDelimitedCodec` frame (4-byte length field, 8 MiB max). -/
def noiseCodecEncode (st : TransportState) (data : List Nat) :
    Out (TransportState × List Nat) :=
  match noiseChunksEncode st (chunks65535 data) with
  | Out.ok (st', frames) =>
    match lengthDelimEncode 4 8388608 frames with
    | Out.ok bs => Out.ok (st', bs)
    | Out.err => Out.err
    | Out.panic => Out.panic
  | Out.err => Out.err
  | Out.panic => Out.panic

/-- The record loop of `NoiseCodec::decode` (noise_codec.rs lines
107-117), with structural fuel (each iteration consumes at least two
bytes of `frames`, so `fuel ≥ frames.length` always suffices and the
fuel-exhausted branch is unreachable in `noiseRecordsDecode`): while the
buffer is nonempty, read a 2-byte big-endian record length (panicking on
a 1-byte buffer, as `frames[..2]` does), `split_to` the record
(panicking when the buffer is shorter, as `BytesMut::split_to` does),
decode it through `NoiseFrameCodec` (`?` propagates `Err`, an incomplete
inner frame becomes `Err(InvalidData)` via `.ok_or`), and concatenate
the plaintexts. -/
def noiseRecordsDecodeAux : Nat → TransportState → List Nat → Out (TransportState × List Nat)
  | _, st, [] => Out.ok (st, [])
  | _, _, [_] => Out.panic
  | 0, _, _ :: _ :: _ => Out.panic
  | fuel + 1, st, a :: b :: t =>
    if (a :: b :: t).length < fromBe16 a b + 2 then Out.panic
    else
      match noiseFrameDecode st ((a :: b :: t).take (fromBe16 a b + 2)) with
      | Out.ok (st', some pt, _) =>
        match noiseRecordsDecodeAux fuel st' ((a :: b :: t).drop (fromBe16 a b + 2)) with
        | Out.ok (st'', pts) => Out.ok (st'', pt ++ pts)
        | Out.err => Out.err
        | Out.panic => Out.panic
      | Out.ok (_, none, _) => Out.err
      | Out.err => Out.err
      | Out.panic => Out.panic

/-- The record loop of `NoiseCodec::decode` at its natural fuel. -/
def noiseRecordsDecode (st : TransportState) (frames : List Nat) :
    Out (TransportState × List Nat) :=
  noiseRecordsDecodeAux frames.length st frames

/-- Model of `NoiseCodec::decode` (noise_codec.rs lines 100-124): deframe
one outer frame (4-byte length field), then run the record loop over it. -/
def noiseCodecDecode (st : TransportState) (src : List Nat) :
    Out (TransportState × Option (List Nat) × List Nat) :=
  match lengthDelimDecode 4 8388608 src with
  | Out.ok none => Out.ok (st, none, src)
  | Out.ok (some (frames, rest)) =>
    match noiseRecordsDecode st frames with
    | Out.ok (st', msg) => Out.ok (st', some msg, rest)
    | Out.err => Out.err
    | Out.panic => Out.panic
  | Out.err => Out.err
  | Out.panic => Out.panic

/-! ## Protocol names (libchatty/src/noise_session.rs lines 74-77, 95-98) -/

/-- The role descriptor of the local party (`NoiseSelfType`). -/
inductive NoiseSelfType where
  | N | I | X | K
deriving DecidableEq, Repr

/-- The role descriptor of the remote party (`NoisePeerType`); the `K`
variant carries the peer's known static key. -/
inductive NoisePeerType where
  | N | I | X | K (key : List Nat)
deriving DecidableEq, Repr

/-- Strum-derived `Display` of `NoiseSelfType`: the variant name. -/
def NoiseSelfType.display : NoiseSelfType → String
  | .N => "N"
  | .I => "I"
  | .X => "X"
  | .K => "K"

/-- Strum-derived `Display` of `NoisePeerType`: the variant name (the key
payload of `K` is not printed). -/
def NoisePeerType.display : NoisePeerType → String
  | .N => "N"
  | .I => "I"
  | .X => "X"
  | .K _ => "K"

/-- The protocol name composed by `NoiseBuilder::build_as_initiator`
(noise_session.rs lines 74-77): my type first, peer type second. -/
def build_as_initiator_protocol (my : NoiseSelfType) (peer : NoisePeerType) : String :=
  "Noise_" ++ my.display ++ peer.display ++ "_25519_ChaChaPoly_BLAKE2b"

/-- The protocol name composed by `NoiseBuilder::build_as_responder`
(noise_session.rs lines 95-98): peer type first, my type second. -/
def build_as_responder_protocol (my : NoiseSelfType) (peer : NoisePeerType) : String :=
  "Noise_" ++ peer.display ++ my.display ++ "_25519_ChaChaPoly_BLAKE2b"

/-- Spec-side rendering of a protocol name from two role letters, used to
compare the source's composition against the specification's words. -/
def specProtocolName (first second : String) : String :=
  "Noise_" ++ first ++ second ++ "_25519_ChaChaPoly_BLAKE2b"

/-- The peer-type descriptor whose letter matches a given self-type
descriptor, with the key (for `K`) supplied from out-of-band identity
exchange; this is how the two ends of one session mirror each other's
role parameters. -/
def mirrorPeerOf : NoiseSelfType → List Nat → NoisePeerType
  | .N, _ => .N
  | .I, _ => .I
  | .X, _ => .X
  | .K, key => .K key

/-! ## The relay service (p2p-relay/src/main.rs)

One `process` task per accepted connection; shared state is
`ConnectionDb = HashMap<VerifyingKey, SocketAddr>` and
`NotifyDb = HashMap<SocketAddr, mpsc::Sender<Notify>>`. Keys and socket
addresses are modelled as `Nat`; the `HashMap` is modelled as an
association list whose `insert` replaces the binding of an existing key,
which is exactly `HashMap::insert`'s semantics. -/

/-- An Ed25519 identity key (or its X25519 form), abstracted. -/
abbrev Key := Nat

/-- A socket address, abstracted. -/
abbrev Addr := Nat

/-- Model of `utils::ed25519_verifying_to_x25519` (libchatty/src/utils.rs
lines 12-14): the deterministic Montgomery-form conversion of an Ed25519
verifying key, abstracted to an arbitrary fixed deterministic map on the
abstract key space (the curve arithmetic is an external crate; no claim
below depends on anything but determinism and the existence of
mismatched key pairs). -/
def ed25519_verifying_to_x25519 (k : Key) : Key := k

/-- Messages from a client to the relay (libchatty/src/messaging.rs). -/
inductive RelayRequest where
  | Register (k : Key)
  | GetUser (k : Key)
  | Ack
  | Bye
deriving DecidableEq, Repr

/-- Messages from the relay to a client (libchatty/src/messaging.rs). -/
inductive RelayResponse where
  | UserAddress (a : Option Addr)
  | AwaitConnection (k : Key) (a : Addr)
  | Ack
deriving DecidableEq, Repr

/-- The relay's internal per-connection notification message
(p2p-relay/src/main.rs `enum Notify`). -/
inductive NotifyMsg where
  | Call (a : Addr)
deriving DecidableEq, Repr

/-- The relay registry `ConnectionDb`, as an association list. -/
abbrev ConnectionDb := List (Key × Addr)

/-- The relay notification registry `NotifyDb`; the channel sender is
identified by an abstract channel id. -/
abbrev NotifyDb := List (Addr × Nat)

/-- Model of `HashMap::insert`: replace the binding of `k` when present,
otherwise add a new one. -/
def dbInsert (db : ConnectionDb) (k : Key) (a : Addr) : ConnectionDb :=
  if db.any (fun p => p.1 == k) then
    db.map (fun p => if p.1 = k then (k, a) else p)
  else (k, a) :: db

/-- The per-connection state `process` holds when its select loop runs:
the connection's remote address (captured once at accept time) and the
remote static key the Noise handshake observed. The handshake key is in
scope in `process` (via the established transport) but, notably, is never
read by it. -/
structure RelaySession where
  addr : Addr
  hsKey : Key
deriving DecidableEq, Repr

/-- Model of the `RelayRequest::Register` arm of `process`
(p2p-relay/src/main.rs lines 105-113): unconditionally insert
`pubkey ↦ remote address` into the registry and reply `Ack`. No
comparison against the handshake-observed key occurs anywhere in the
arm. Returns the new registry and the responses sent to the client. -/
def processRegister (sess : RelaySession) (db : ConnectionDb) (pubkey : Key) :
    ConnectionDb × List RelayResponse :=
  (dbInsert db pubkey sess.addr, [RelayResponse.Ack])

/-- What the `RelayRequest::GetUser` arm of `process` sends: the reply to
the calling client and the notifications pushed onto other connections'
channels (channel id paired with the message). -/
structure GetUserResult where
  toCaller : List RelayResponse
  toNotify : List (Nat × NotifyMsg)
deriving DecidableEq, Repr

/-- Model of the `RelayRequest::GetUser` arm of `process`
(p2p-relay/src/main.rs lines 114-132): look the target up in the
registry, then `tokio::join!` a `UserAddress(result)` reply with a task
that runs `notify_db.get(&result.unwrap()).unwrap()` and sends
`Notify::Call(caller address)` on that channel. When the target is not
registered, `result.unwrap()` panics the connection task (the joined
reply is not guaranteed to have been sent); likewise when the callee's
endpoint has no notification channel. -/
def processGetUser (sess : RelaySession) (connDb : ConnectionDb) (notifyDb : NotifyDb)
    (target : Key) : Out GetUserResult :=
  match List.lookup target connDb with
  | none => Out.panic
  | some calleeAddr =>
    match List.lookup calleeAddr notifyDb with
    | none => Out.panic
    | some ch =>
      Out.ok { toCaller := [RelayResponse.UserAddress (some calleeAddr)],
               toNotify := [(ch, NotifyMsg.Call sess.addr)] }

/-- Model of the notification arm of `process` (p2p-relay/src/main.rs
lines 137-144): on `Notify::Call(addr)` reverse-look the key up whose
registered endpoint is `addr` (`.next().unwrap()` panics when there is
none) and forward `AwaitConnection(key, addr)` to this connection's
client. -/
def processNotify (connDb : ConnectionDb) (notification : NotifyMsg) : Out RelayResponse :=
  match notification with
  | NotifyMsg.Call a =>
    match (connDb.filter (fun p => p.2 == a)).head? with
    | some kv => Out.ok (RelayResponse.AwaitConnection kv.1 a)
    | none => Out.panic

/-- The registry states reachable at the relay: it starts empty
(`main`, `ConnectionDb::new()`), and the only statement that ever
mutates it is the insert in the `Register` arm (the `GetUser` and notify
arms only read it, and no teardown removal is implemented). -/
inductive RelayReachable : ConnectionDb → Prop where
  | init : RelayReachable []
  | register (sess : RelaySession) (k : Key) (db : ConnectionDb) :
      RelayReachable db → RelayReachable (processRegister sess db k).1

/-- A registry maps each key to at most one endpoint. -/
def FunctionalDb (db : ConnectionDb) : Prop :=
  ∀ k a a', (k, a) ∈ db → (k, a') ∈ db → a = a'

/-! ## The client connection manager (p2p-chat/src/connmanager.rs)

`ConnManager::run` (lines 61-169) opens a QUIC connection to the relay,
upgrades it with `upgrade_relay_connection` (lines 175-196, the Noise IK
handshake — which itself sends nothing at the message layer), and then
immediately enters its `tokio::select!` command loop. The relay-bound
messages it produces are modelled as traces. -/

/-- Commands the UI sends to the connection manager
(p2p-chat/src/connmanager.rs `enum ConnInstruction`). -/
inductive ConnInstruction where
  | GetUser (k : Key)
  | Send (s : String)

/-- The relay-bound messages `ConnManager::run` sends between the
completion of `upgrade_relay_connection` and the first iteration of its
command loop. The code performs no message-layer send there (only
logging), so the trace is empty: in particular no
`Register(local_identity_key)` is ever sent and no `Ack` awaited. -/
def connManagerPreLoopSends (_localKey : Key) : List RelayRequest := []

/-- The relay-bound messages one command-loop iteration sends for a
received instruction: the `GetUser` arm forwards
`RelayRequest::GetUser(pubkey)`; a `Send` instruction matches no select
arm pattern and produces nothing. -/
def connManagerLoopSends : ConnInstruction → List RelayRequest
  | ConnInstruction.GetUser k => [RelayRequest.GetUser k]
  | ConnInstruction.Send _ => []

/-- All relay-bound messages of a run of `ConnManager::run` that
processes the given instruction list: the (empty) pre-loop trace followed
by the per-instruction sends. -/
def connManagerSends (localKey : Key) (instrs : List ConnInstruction) : List RelayRequest :=
  connManagerPreLoopSends localKey ++ (instrs.map connManagerLoopSends).flatten

/-! ## The per-peer session (p2p-chat/src/peermanager.rs)

State of interest of `PeerManager`: `conn : Option<PeerConnection>`
(modelled by a presence flag), `sent_invite : Option<FileHandle>` and
`recv_invite : Option<FileMetadata>`. File-system reads and the raw byte
stream of the peer connection are passed in as explicit byte lists. The
`PeerPacket` variants are the ones `peermanager.rs` matches on
(`Send`, `Share`, `GimmeFile`, plus the `Ack`/`Bye` it ignores). -/

/-- Model of `utils::get_hash_from_file` (libchatty/src/utils.rs lines
28-37) applied to a file's bytes: streaming BLAKE3, abstracted to an
arbitrary fixed deterministic 256-bit digest function (BLAKE3 itself is
an external crate; no claim below depends on more than determinism and
the existence of non-matching digests). -/
def get_hash_from_file (data : List Nat) : Nat :=
  data.foldl (fun h b => (h * 257 + b + 1) % 2 ^ 256) 0

/-- File descriptor (libchatty/src/system.rs `FileMetadata`); the MIME
field is carried opaquely. -/
structure FileMetadata where
  name : String
  size : Nat
  hash : Nat
  filetype : Option String
deriving DecidableEq, Repr

/-- A sharer-side handle (libchatty/src/system.rs `FileHandle`): a path
plus the metadata computed from the file. -/
structure FileHandle where
  path : String
  metadata : FileMetadata
deriving DecidableEq, Repr

/-- Payload of a user message (libchatty/src/messaging.rs). -/
inductive PeerMessageData where
  | Text (s : String)
deriving DecidableEq, Repr

/-- Peer-to-peer packets as used by peermanager.rs. -/
inductive PeerPacket where
  | Send (m : PeerMessageData)
  | Share (f : FileMetadata)
  | GimmeFile
  | Ack
  | Bye
deriving DecidableEq, Repr

/-- Messages the peer session sends up to the connection manager / UI
(`crate::connmanager::ConnMessage` as used by peermanager.rs and
eventmanager.rs). -/
inductive ConnMessage where
  | UserMessage (author : Key) (m : PeerMessageData)
  | FileInvite (f : FileMetadata)
  | DownloadedFile
  | ServerOffline
  | Connecting
  | Connected
deriving DecidableEq, Repr

/-- The `PeerManager` fields the file-transfer protocol reads or writes. -/
structure PeerState where
  conn : Bool
  sent_invite : Option FileHandle
  recv_invite : Option FileMetadata
deriving DecidableEq, Repr

/-- Model of `PeerManager::send_file_invite` (peermanager.rs lines
145-154): build a `FileHandle` for the path (`FileHandle::new` reads the
file, recording its size, its BLAKE3 digest and the externally sniffed
MIME type), store it in `sent_invite`, then send `Share(metadata)` —
which fails with an `Err` when there is no connection (`send_packet`'s
`ok_or`), the invite having already been stored. -/
def send_file_invite (st : PeerState) (path name : String) (fileBytes : List Nat)
    (sniffed : Option String) : PeerState × Out (List PeerPacket) :=
  let handle : FileHandle :=
    { path := path,
      metadata := { name := name, size := fileBytes.length,
                    hash := get_hash_from_file fileBytes, filetype := sniffed } }
  ({ st with sent_invite := some handle },
   if st.conn then Out.ok [PeerPacket.Share handle.metadata] else Out.err)

/-- Model of `PeerManager::upload_file` (peermanager.rs lines 167-180):
`self.sent_invite.as_ref().unwrap()` — a missing invite panics the
session task — then `self.conn.as_mut().unwrap()` and a raw
`tokio::io::copy` of the file's bytes into the socket. Returns the bytes
written to the socket. -/
def upload_file (st : PeerState) (fileOnDisk : List Nat) : Out (List Nat) :=
  match st.sent_invite with
  | none => Out.panic
  | some _ =>
    match st.conn with
    | false => Out.panic
    | true => Out.ok fileOnDisk

/-- Effects of handling one incoming packet: the successor state, the raw
bytes written to the socket, and the messages sent up to the connection
manager. -/
structure StepResult where
  st : PeerState
  socketBytes : List Nat
  toConnMgr : List ConnMessage
deriving DecidableEq, Repr

/-- Model of `PeerManager::handle_incoming_packet` (peermanager.rs lines
85-97): `Send` forwards a `UserMessage` upward (`receive_message`),
`Share` stores the received invite and forwards `FileInvite`
(`receive_file_invite`), `GimmeFile` runs `upload_file`, everything else
is ignored. -/
def handle_incoming_packet (peerKey : Key) (st : PeerState) (fileOnDisk : List Nat) :
    PeerPacket → Out StepResult
  | PeerPacket.Send m =>
    Out.ok { st := st, socketBytes := [],
             toConnMgr := [ConnMessage.UserMessage peerKey m] }
  | PeerPacket.Share f =>
    Out.ok { st := { st with recv_invite := some f }, socketBytes := [],
             toConnMgr := [ConnMessage.FileInvite f] }
  | PeerPacket.GimmeFile =>
    match upload_file st fileOnDisk with
    | Out.ok bs => Out.ok { st := st, socketBytes := bs, toConnMgr := [] }
    | Out.err => Out.err
    | Out.panic => Out.panic
  | _ => Out.ok { st := st, socketBytes := [], toConnMgr := [] }

/-- Effects of a completed `download_file`: the bytes written to the file
on disk, the messages sent up to the connection manager, and the packets
sent to the peer. -/
structure DownloadResult where
  written : List Nat
  toConnMgr : List ConnMessage
  toPeer : List PeerPacket
deriving DecidableEq, Repr

/-- Model of `PeerManager::download_file` (peermanager.rs lines 182-214):
fail with an `Err` when `recv_invite` is `None` (`ok_or`) or when there
is no connection (`send_packet`'s `ok_or`); otherwise open the save file,
send `GimmeFile`, copy the connection's raw byte stream limited by
`.take(invite.size)` into the file, and send `DownloadedFile` upward.
Note the function never recomputes any digest of the written bytes and
never reads `invite.hash`. -/
def download_file (recv_invite : Option FileMetadata) (conn : Bool)
    (stream : List Nat) : Out DownloadResult :=
  match recv_invite with
  | none => Out.err
  | some invite =>
    match conn with
    | false => Out.err
    | true =>
      Out.ok { written := stream.take invite.size,
               toConnMgr := [ConnMessage.DownloadedFile],
               toPeer := [PeerPacket.GimmeFile] }

/-- Sample file name used in concrete instances. -/
def sampleFileName : String := "f"

/-- Sample file path used in concrete instances. -/
def samplePath : String := "p"

/-- Sample sharer-side file handle used in concrete instances. -/
def sampleHandle : FileHandle := ⟨samplePath, ⟨sampleFileName, 3, 0, none⟩⟩

end Aluminum
namespace Aluminum

/-- Unfolding of the 2-byte big-endian length encoding. -/
theorem toBeBytes_two (m : Nat) : toBeBytes 2 m = [m / 256 % 256, m % 256] := rfl

/-- Length of the big-endian encoding. -/
theorem toBeBytes_length (w m : Nat) : (toBeBytes w m).length = w := by
  induction w generalizing m with
  | zero => rfl
  | succ k ih => simp [toBeBytes, ih]

/-- The big-endian decode inverts the encode below `256 ^ w`. -/
theorem fromBeBytes_toBeBytes (w m : Nat) (h : m < 256 ^ w) :
    fromBeBytes (toBeBytes w m) = m := by
  induction w generalizing m with
  | zero =>
    simp [toBeBytes, fromBeBytes]
    omega
  | succ k ih =>
    have hdiv : m / 256 < 256 ^ k := by
      rw [Nat.div_lt_iff_lt_mul (by norm_num)]
      calc m < 256 ^ (k + 1) := h
        _ = 256 ^ k * 256 := by ring
    simp only [toBeBytes, fromBeBytes, List.foldl_append]
    have hk := ih (m / 256) hdiv
    simp only [fromBeBytes] at hk
    simp [hk]
    omega

/-- The inline `u16::from_be_bytes` of `NoiseCodec::decode` inverts the
2-byte encoding below 65536. -/
theorem fromBe16_split (m : Nat) (h : m < 65536) :
    fromBe16 (m / 256 % 256) (m % 256) = m := by
  unfold fromBe16
  rw [Nat.mod_eq_of_lt (by omega : m / 256 < 256)]
  omega

/-- Length-delimited encoding succeeds on payloads within both limits. -/
theorem lengthDelimEncode_ok (w M : Nat) (data : List Nat)
    (h1 : data.length ≤ M) (h2 : data.length < 256 ^ w) :
    lengthDelimEncode w M data = Out.ok (toBeBytes w data.length ++ data) := by
  unfold lengthDelimEncode
  rw [if_neg (by omega), Nat.mod_eq_of_lt h2]

/-- Length-delimited decoding of exactly one complete frame. -/
theorem lengthDelimDecode_exact (w M : Nat) (data : List Nat)
    (h1 : data.length ≤ M) (h2 : data.length < 256 ^ w) :
    lengthDelimDecode w M (toBeBytes w data.length ++ data) = Out.ok (some (data, [])) := by
  have hlenw : (toBeBytes w data.length).length = w := toBeBytes_length ..
  have hsrc : (toBeBytes w data.length ++ data).length = w + data.length := by
    simp [hlenw]
  have htakeGen : ∀ (l r : List Nat), l.length = w → (l ++ r).take w = l := by
    intro l r hl
    rw [← hl]
    exact List.take_left ..
  have hdropGen : ∀ (l r : List Nat), l.length = w → (l ++ r).drop w = r := by
    intro l r hl
    rw [← hl]
    exact List.drop_left ..
  have htake := htakeGen (toBeBytes w data.length) data hlenw
  have hdrop := hdropGen (toBeBytes w data.length) data hlenw
  have hdropAll : (toBeBytes w data.length ++ data).drop (w + data.length) = [] := by
    apply List.drop_eq_nil_of_le
    omega
  unfold lengthDelimDecode
  rw [if_neg (by omega)]
  simp only [htake, fromBeBytes_toBeBytes w data.length h2]
  rw [if_neg (by omega), if_neg (by omega), hdrop, List.take_length, hdropAll]

end Aluminum

namespace Aluminum

/-- A nonempty payload of at most 65535 bytes forms a single chunk. -/
theorem chunks65535_small (a : Nat) (t : List Nat) (h : (a :: t).length ≤ 65535) :
    chunks65535 (a :: t) = [a :: t] := by
  unfold chunks65535
  simp only [List.length_cons, chunksAux]
  rw [List.take_of_length_le h, List.drop_eq_nil_of_le h]
  simp [chunksAux]

/-- The AEAD tag is 16 bytes long. -/
theorem aeadTag_length (k n : Nat) (p : List Nat) : (aeadTag k n p).length = 16 := by
  simp [aeadTag, TAGLEN]

/-- Snow encryption succeeds whenever the plaintext leaves room for the
tag, producing the tagged ciphertext and bumping the nonce. -/
theorem writeMessage_ok (k n : Nat) (p : List Nat) (h : p.length + 16 ≤ 65535) :
    writeMessage ⟨k, n⟩ p = Out.ok (⟨k, n + 1⟩, p ++ aeadTag k n p) := by
  unfold writeMessage
  rw [if_neg (by simp only [TAGLEN, MAXMSGLEN]; omega)]

/-- Snow decryption of a correctly tagged ciphertext recovers the
plaintext and bumps the nonce. -/
theorem readMessage_roundtrip (k n : Nat) (p : List Nat) (h : p.length + 16 ≤ 65535) :
    readMessage ⟨k, n⟩ (p ++ aeadTag k n p) = Out.ok (⟨k, n + 1⟩, p) := by
  have hlen : (p ++ aeadTag k n p).length = p.length + 16 := by
    simp [aeadTag_length]
  unfold readMessage
  rw [if_neg (by rw [hlen]; simp only [MAXMSGLEN]; omega),
      if_neg (by rw [hlen]; simp only [TAGLEN]; omega)]
  simp only [hlen, TAGLEN]
  have h16 : p.length + 16 - 16 = p.length := by omega
  rw [h16, List.take_left, List.drop_left, if_pos rfl]

/-- One record encode: the tagged ciphertext under a 2-byte length field. -/
theorem noiseFrameEncode_ok (k n : Nat) (p : List Nat) (h : p.length + 16 ≤ 65535) :
    noiseFrameEncode ⟨k, n⟩ p =
      Out.ok (⟨k, n + 1⟩, toBeBytes 2 (p.length + 16) ++ (p ++ aeadTag k n p)) := by
  have hct : (p ++ aeadTag k n p).length = p.length + 16 := by
    simp [aeadTag_length]
  have hsq : (256 : Nat) ^ 2 = 65536 := by norm_num
  have henc := lengthDelimEncode_ok 2 8388608 (p ++ aeadTag k n p) (by omega) (by omega)
  rw [hct] at henc
  simp only [noiseFrameEncode, writeMessage_ok k n p h, henc]

/-- One record decode: deframing then decryption recovers the plaintext. -/
theorem noiseFrameDecode_ok (k n : Nat) (p : List Nat) (h : p.length + 16 ≤ 65535) :
    noiseFrameDecode ⟨k, n⟩ (toBeBytes 2 (p.length + 16) ++ (p ++ aeadTag k n p)) =
      Out.ok (⟨k, n + 1⟩, some p, []) := by
  have hct : (p ++ aeadTag k n p).length = p.length + 16 := by
    simp [aeadTag_length]
  have hsq : (256 : Nat) ^ 2 = 65536 := by norm_num
  have hdec := lengthDelimDecode_exact 2 8388608 (p ++ aeadTag k n p)
    (by omega) (by omega)
  rw [hct] at hdec
  simp only [noiseFrameDecode, hdec, readMessage_roundtrip k n p h]

end Aluminum

namespace Aluminum

/-- The record loop consumes one complete well-formed record and, with
the matching transport state, recovers its plaintext. -/
theorem noiseRecordsDecodeAux_single (fuel k n : Nat) (p : List Nat)
    (h : p.length + 16 ≤ 65535) :
    noiseRecordsDecodeAux (fuel + 1) ⟨k, n⟩
      (toBeBytes 2 (p.length + 16) ++ (p ++ aeadTag k n p)) = Out.ok (⟨k, n + 1⟩, p) := by
  have hcons : toBeBytes 2 (p.length + 16) ++ (p ++ aeadTag k n p) =
      (p.length + 16) / 256 % 256 :: (p.length + 16) % 256 :: (p ++ aeadTag k n p) := by
    rw [toBeBytes_two]
    rfl
  have hlen : ((p.length + 16) / 256 % 256 :: (p.length + 16) % 256 ::
      (p ++ aeadTag k n p)).length = p.length + 18 := by
    simp [aeadTag_length]
  have hbe : fromBe16 ((p.length + 16) / 256 % 256) ((p.length + 16) % 256) = p.length + 16 :=
    fromBe16_split (p.length + 16) (by omega)
  rw [hcons]
  simp only [noiseRecordsDecodeAux, hbe, hlen]
  rw [if_neg (by omega)]
  have htake : ((p.length + 16) / 256 % 256 :: (p.length + 16) % 256 ::
      (p ++ aeadTag k n p)).take (p.length + 16 + 2) =
      (p.length + 16) / 256 % 256 :: (p.length + 16) % 256 :: (p ++ aeadTag k n p) := by
    apply List.take_of_length_le
    rw [hlen]
  have hdropAll : ((p.length + 16) / 256 % 256 :: (p.length + 16) % 256 ::
      (p ++ aeadTag k n p)).drop (p.length + 16 + 2) = [] := by
    apply List.drop_eq_nil_of_le
    rw [hlen]
  rw [htake, hdropAll, ← hcons, noiseFrameDecode_ok k n p h]
  simp [noiseRecordsDecodeAux]

/-- The record loop at its natural fuel on exactly one record. -/
theorem noiseRecordsDecode_single (k n : Nat) (p : List Nat)
    (h : p.length + 16 ≤ 65535) :
    noiseRecordsDecode ⟨k, n⟩ (toBeBytes 2 (p.length + 16) ++ (p ++ aeadTag k n p)) =
      Out.ok (⟨k, n + 1⟩, p) := by
  unfold noiseRecordsDecode
  have hL : (toBeBytes 2 (p.length + 16) ++ (p ++ aeadTag k n p)).length =
      (p.length + 17) + 1 := by
    simp [toBeBytes_length, aeadTag_length]
    omega
  rw [hL]
  exact noiseRecordsDecodeAux_single (p.length + 17) k n p h

end Aluminum

namespace Aluminum

/-- The chunk loop on a single chunk of at most 65519 bytes. -/
theorem noiseChunksEncode_single (k n : Nat) (p : List Nat) (h : p.length + 16 ≤ 65535) :
    noiseChunksEncode ⟨k, n⟩ [p] =
      Out.ok (⟨k, n + 1⟩, toBeBytes 2 (p.length + 16) ++ (p ++ aeadTag k n p)) := by
  simp only [noiseChunksEncode, noiseFrameEncode_ok k n p h, List.append_nil]

/-- Full chunked encode for one nonempty chunk of at most 65519 bytes. -/
theorem noiseCodecEncode_ok (k n a : Nat) (t : List Nat) (h : (a :: t).length ≤ 65519) :
    noiseCodecEncode ⟨k, n⟩ (a :: t) =
      Out.ok (⟨k, n + 1⟩,
        toBeBytes 4 (toBeBytes 2 ((a :: t).length + 16) ++
          ((a :: t) ++ aeadTag k n (a :: t))).length ++
        (toBeBytes 2 ((a :: t).length + 16) ++ ((a :: t) ++ aeadTag k n (a :: t)))) := by
  have hF : (toBeBytes 2 ((a :: t).length + 16) ++
      ((a :: t) ++ aeadTag k n (a :: t))).length = (a :: t).length + 18 := by
    simp [toBeBytes_length, aeadTag_length]
    omega
  have hp4 : (256 : Nat) ^ 4 = 4294967296 := by norm_num
  have henc := lengthDelimEncode_ok 4 8388608
    (toBeBytes 2 ((a :: t).length + 16) ++ ((a :: t) ++ aeadTag k n (a :: t)))
    (by omega) (by omega)
  unfold noiseCodecEncode
  rw [chunks65535_small a t (by omega), noiseChunksEncode_single k n (a :: t) (by omega)]
  simp only [henc]

/-- Full chunked decode of the bytes produced by `noiseCodecEncode_ok`. -/
theorem noiseCodecDecode_ok (k n a : Nat) (t : List Nat) (h : (a :: t).length ≤ 65519) :
    noiseCodecDecode ⟨k, n⟩
      (toBeBytes 4 (toBeBytes 2 ((a :: t).length + 16) ++
        ((a :: t) ++ aeadTag k n (a :: t))).length ++
       (toBeBytes 2 ((a :: t).length + 16) ++ ((a :: t) ++ aeadTag k n (a :: t)))) =
      Out.ok (⟨k, n + 1⟩, some (a :: t), []) := by
  have hF : (toBeBytes 2 ((a :: t).length + 16) ++
      ((a :: t) ++ aeadTag k n (a :: t))).length = (a :: t).length + 18 := by
    simp [toBeBytes_length, aeadTag_length]
    omega
  have hp4 : (256 : Nat) ^ 4 = 4294967296 := by norm_num
  have hdec := lengthDelimDecode_exact 4 8388608
    (toBeBytes 2 ((a :: t).length + 16) ++ ((a :: t) ++ aeadTag k n (a :: t)))
    (by omega) (by omega)
  unfold noiseCodecDecode
  rw [hdec]
  simp only [noiseRecordsDecode_single k n (a :: t) (by omega)]

/-- Snow encryption fails when the payload leaves no room for the tag. -/
theorem writeMessage_err (st : TransportState) (p : List Nat) (h : 65520 ≤ p.length) :
    writeMessage st p = Out.err := by
  unfold writeMessage
  rw [if_pos (by simp only [TAGLEN, MAXMSGLEN]; omega)]

/-- The record encoder panics (it unwraps the snow error) on any payload
of 65520 bytes or more. -/
theorem noiseFrameEncode_panic (st : TransportState) (p : List Nat) (h : 65520 ≤ p.length) :
    noiseFrameEncode st p = Out.panic := by
  unfold noiseFrameEncode
  rw [writeMessage_err st p h]

/-- The chunked encoder panics on a single-chunk payload of 65520 to
65535 bytes: the chunk is handed to the record encoder whole and its
ciphertext would exceed the record limit. -/
theorem noiseCodecEncode_panic (st : TransportState) (a : Nat) (t : List Nat)
    (hle : (a :: t).length ≤ 65535) (hge : 65520 ≤ (a :: t).length) :
    noiseCodecEncode st (a :: t) = Out.panic := by
  unfold noiseCodecEncode
  rw [chunks65535_small a t hle]
  simp only [noiseChunksEncode, noiseFrameEncode_panic st _ hge]

end Aluminum

namespace Aluminum

/-- Looking up the key just inserted yields the inserted address. -/
theorem lookup_dbInsert (db : ConnectionDb) (k : Key) (a : Addr) :
    List.lookup k (dbInsert db k a) = some a := by
  unfold dbInsert
  by_cases hany : db.any (fun p => p.1 == k)
  · rw [if_pos hany]
    induction db with
    | nil => simp at hany
    | cons q t ih =>
      by_cases hq : q.1 = k
      · simp only [List.map_cons, if_pos hq]
        simp [List.lookup]
      · have hany' : t.any (fun p => p.1 == k) = true := by
          simpa [List.any_cons, hq] using hany
        have hkq : (k == q.1) = false := by
          refine beq_eq_false_iff_ne.mpr ?_
          exact fun he => hq he.symm
        rw [List.map_cons, if_neg hq]
        simp only [List.lookup, hkq]
        exact ih hany'
  · rw [if_neg hany]
    simp [List.lookup]

/-- Inserting preserves at-most-one-endpoint-per-key. -/
theorem dbInsert_functional (db : ConnectionDb) (k : Key) (a : Addr)
    (h : FunctionalDb db) : FunctionalDb (dbInsert db k a) := by
  unfold dbInsert
  by_cases hany : db.any (fun p => p.1 == k)
  · rw [if_pos hany]
    intro k0 a1 a2 h1 h2
    rw [List.mem_map] at h1 h2
    obtain ⟨p1, hp1, he1⟩ := h1
    obtain ⟨p2, hp2, he2⟩ := h2
    by_cases hk1 : p1.1 = k
    · rw [if_pos hk1] at he1
      by_cases hk2 : p2.1 = k
      · rw [if_pos hk2] at he2
        have e1 : a = a1 := by simpa using congrArg Prod.snd he1
        have e2 : a = a2 := by simpa using congrArg Prod.snd he2
        exact e1.symm.trans e2
      · rw [if_neg hk2] at he2
        exfalso
        apply hk2
        have hk0 : k0 = k := by simpa using (congrArg Prod.fst he1).symm
        rw [he2]
        simpa using hk0
    · rw [if_neg hk1] at he1
      by_cases hk2 : p2.1 = k
      · rw [if_pos hk2] at he2
        exfalso
        apply hk1
        have hk0 : k0 = k := by simpa using (congrArg Prod.fst he2).symm
        rw [he1]
        simpa using hk0
      · rw [if_neg hk2] at he2
        exact h k0 a1 a2 (he1 ▸ hp1) (he2 ▸ hp2)
  · rw [if_neg hany]
    intro k0 a1 a2 h1 h2
    rw [List.mem_cons] at h1 h2
    have hnot : ∀ p ∈ db, ¬ p.1 = k := by
      intro q hq he
      apply hany
      rw [List.any_eq_true]
      exact ⟨q, hq, by simpa using he⟩
    rcases h1 with h1 | h1
    · rcases h2 with h2 | h2
      · simpa using congrArg Prod.snd (h1.trans h2.symm)
      · exfalso
        have hk0 : k0 = k := by simpa using congrArg Prod.fst h1
        exact hnot (k0, a2) h2 (by simpa using hk0)
    · rcases h2 with h2 | h2
      · exfalso
        have hk0 : k0 = k := by simpa using congrArg Prod.fst h2
        exact hnot (k0, a1) h1 (by simpa using hk0)
      · exact h k0 a1 a2 h1 h2

end Aluminum

namespace Aluminum

/-- C1 counterexample: a completed download whose bytes hash to a digest
different from the hash field of the received `FileMeta` descriptor is
still accepted — `download_file` returns `Ok` and reports
`DownloadedFile`, so the file is accepted despite the mismatch and no
error is surfaced. -/
theorem c1_counterexample :
    download_file (some ⟨sampleFileName, 1, 7, none⟩) true [5] =
      Out.ok ⟨[5], [ConnMessage.DownloadedFile], [PeerPacket.GimmeFile]⟩ ∧
    get_hash_from_file [5] ≠ 7 := by
  refine ⟨rfl, by decide⟩

/-- C1 amended: the receiver never recomputes any digest after a
download. `download_file` with an invite present and a live connection
accepts unconditionally: it writes the first `size` bytes of the stream,
reports `DownloadedFile`, and its behaviour is independent of the hash
field of the invite; only a missing invite (or missing connection) is an
error. -/
theorem c1_download_never_checks_digest (nm : String) (size h h' : Nat)
    (ft : Option String) (stream : List Nat) :
    download_file (some ⟨nm, size, h, ft⟩) true stream =
      download_file (some ⟨nm, size, h', ft⟩) true stream ∧
    download_file (some ⟨nm, size, h, ft⟩) true stream =
      Out.ok ⟨stream.take size, [ConnMessage.DownloadedFile], [PeerPacket.GimmeFile]⟩ ∧
    download_file none true stream = Out.err :=
  ⟨rfl, rfl, rfl⟩

/-- C2 counterexample: a `Register` whose identity key converts to an
X25519 key different from the handshake-observed static key is still
accepted — the entry is created and `Ack` is sent. -/
theorem c2_counterexample :
    (processRegister ⟨7, 99⟩ [] 1).2 = [RelayResponse.Ack] ∧
    List.lookup 1 (processRegister ⟨7, 99⟩ [] 1).1 = some 7 ∧
    ed25519_verifying_to_x25519 1 ≠ 99 := by
  decide

/-- C2 amended: the relay accepts every `Register(identity_key)`
unconditionally: the handler's result is independent of the
handshake-observed static key, it always replies exactly `Ack`, and it
always maps the claimed key to the connection's remote address; no
verification against the handshake key occurs and no session is closed. -/
theorem c2_register_is_unchecked (a : Addr) (h h' : Key) (db : ConnectionDb) (k : Key) :
    processRegister ⟨a, h⟩ db k = processRegister ⟨a, h'⟩ db k ∧
    (processRegister ⟨a, h⟩ db k).2 = [RelayResponse.Ack] ∧
    List.lookup k (processRegister ⟨a, h⟩ db k).1 = some a :=
  ⟨rfl, rfl, lookup_dbInsert db k a⟩

/-- C3 counterexample: a complete record whose decryption fails (tag
mismatch) makes `NoiseFrameCodec::decode` panic — and the panic
propagates through `NoiseCodec::decode` — rather than return the `Err`
value the claim states. -/
theorem c3_counterexample :
    noiseFrameDecode ⟨0, 0⟩ (0 :: 17 :: List.replicate 17 0) = Out.panic ∧
    noiseCodecDecode ⟨0, 0⟩ (0 :: 0 :: 0 :: 19 :: 0 :: 17 :: List.replicate 17 0) = Out.panic ∧
    (Out.panic : Out (TransportState × Option (List Nat) × List Nat)) ≠ Out.err := by
  refine ⟨by decide, by decide, by decide⟩

/-- C3 amended: for every inbound record whose decryption under the
session transport state fails, the decoder panics (it unwraps the
decryption error) instead of returning an `Err` value; it never yields
data from such a record, and the session task dies by panic. -/
theorem c3_decrypt_failure_panics (st : TransportState) (src frame rest : List Nat)
    (h1 : lengthDelimDecode 2 8388608 src = Out.ok (some (frame, rest)))
    (h2 : readMessage st frame = Out.err) :
    noiseFrameDecode st src = Out.panic := by
  unfold noiseFrameDecode
  rw [h1]
  simp only [h2]

/-- C3 witness: the amended theorem applied to a concrete corrupted
record. -/
theorem c3_decrypt_failure_panics_witness :
    noiseFrameDecode ⟨0, 0⟩ (0 :: 18 :: List.replicate 18 0) = Out.panic :=
  c3_decrypt_failure_panics ⟨0, 0⟩ (0 :: 18 :: List.replicate 18 0)
    (List.replicate 18 0) [] (by decide) (by decide)

/-- C4 counterexample: a payload of 65535 bytes — within the claim's
`len(p) ≤ 65535` bound — does not round-trip: encoding panics (its
ciphertext would be 65551 bytes, past the record limit), so no bytes are
ever produced for the decoder. -/
theorem c4_counterexample :
    (List.replicate 65535 (0 : Nat)).length ≤ 65535 ∧
    noiseCodecEncode ⟨0, 0⟩ (List.replicate 65535 (0 : Nat)) = Out.panic ∧
    ¬ ∃ st' bs, noiseCodecEncode ⟨0, 0⟩ (List.replicate 65535 (0 : Nat)) = Out.ok (st', bs) := by
  have hrep : List.replicate 65535 (0 : Nat) = 0 :: List.replicate 65534 0 := by
    rw [show (65535 : Nat) = 65534 + 1 from rfl, List.replicate_succ]
  have hpanic : noiseCodecEncode ⟨0, 0⟩ (List.replicate 65535 (0 : Nat)) = Out.panic := by
    rw [hrep]
    exact noiseCodecEncode_panic ⟨0, 0⟩ 0 (List.replicate 65534 0)
      (by rw [List.length_cons, List.length_replicate])
      (by rw [List.length_cons, List.length_replicate]; omega)
  refine ⟨by rw [List.length_replicate], hpanic, ?_⟩
  rintro ⟨st', bs, hbs⟩
  rw [hpanic] at hbs
  exact Out.noConfusion hbs

/-- C4 amended: for handshake-matched transport states, the chunked
codec round-trips every payload of at most 65519 bytes (65535 minus the
16-byte AEAD tag) byte-for-byte, the decoder ending in the same state as
the encoder; longer payloads never produce bytes (encoding panics). -/
theorem c4_roundtrip_upto_65519 (k n : Nat) (p : List Nat) (h : p.length ≤ 65519) :
    ∃ st' bs, noiseCodecEncode ⟨k, n⟩ p = Out.ok (st', bs) ∧
      noiseCodecDecode ⟨k, n⟩ bs = Out.ok (st', some p, []) := by
  cases p with
  | nil => exact ⟨⟨k, n⟩, [0, 0, 0, 0], rfl, rfl⟩
  | cons a t =>
    exact ⟨⟨k, n + 1⟩, _, noiseCodecEncode_ok k n a t h, noiseCodecDecode_ok k n a t h⟩

/-- C4 witness: the round-trip theorem applied to a concrete payload. -/
theorem c4_roundtrip_upto_65519_witness :
    (List.length ([3, 4] : List Nat) ≤ 65519) ∧
    ∃ st' bs, noiseCodecEncode ⟨5, 0⟩ [3, 4] = Out.ok (st', bs) ∧
      noiseCodecDecode ⟨5, 0⟩ bs = Out.ok (st', some [3, 4], []) :=
  ⟨by norm_num, c4_roundtrip_upto_65519 5 0 [3, 4] (by norm_num)⟩

/-- C5: the claim's unreachability assertion fails on the code — the
chunker hands `NoiseFrameCodec::encode` a single chunk of 65520 bytes
(at most 65535, as the claim assumes), yet encryption does not succeed:
snow rejects the 65536-byte ciphertext and the `.unwrap()` panics, both
in the record encoder and through the whole chunked encoder. -/
theorem c5_chunk_encrypt_panics :
    (List.replicate 65520 (1 : Nat)).length ≤ 65535 ∧
    chunks65535 (List.replicate 65520 (1 : Nat)) = [List.replicate 65520 (1 : Nat)] ∧
    noiseFrameEncode ⟨0, 0⟩ (List.replicate 65520 (1 : Nat)) = Out.panic ∧
    noiseCodecEncode ⟨0, 0⟩ (List.replicate 65520 (1 : Nat)) = Out.panic := by
  have hrep : List.replicate 65520 (1 : Nat) = 1 :: List.replicate 65519 1 := by
    rw [show (65520 : Nat) = 65519 + 1 from rfl, List.replicate_succ]
  refine ⟨by rw [List.length_replicate]; omega, ?_, ?_, ?_⟩
  · rw [hrep]
    exact chunks65535_small 1 (List.replicate 65519 1)
      (by rw [List.length_cons, List.length_replicate]; omega)
  · exact noiseFrameEncode_panic ⟨0, 0⟩ _ (by rw [List.length_replicate])
  · rw [hrep]
    exact noiseCodecEncode_panic ⟨0, 0⟩ 1 (List.replicate 65519 1)
      (by rw [List.length_cons, List.length_replicate]; omega)
      (by rw [List.length_cons, List.length_replicate])

/-- C6: the initiator composes `Noise_<my><peer>_25519_ChaChaPoly_BLAKE2b`,
the responder composes `Noise_<peer><my>_25519_ChaChaPoly_BLAKE2b`, and
two ends whose role parameters mirror each other compute identical
protocol names. -/
theorem c6_protocol_name_mirror (a b : NoiseSelfType) (p : NoisePeerType) (ka kb : List Nat) :
    build_as_initiator_protocol a p = specProtocolName a.display p.display ∧
    build_as_responder_protocol a p = specProtocolName p.display a.display ∧
    build_as_initiator_protocol a (mirrorPeerOf b ka) =
      build_as_responder_protocol b (mirrorPeerOf a kb) := by
  refine ⟨rfl, rfl, ?_⟩
  cases a <;> cases b <;> rfl

/-- C7: in every reachable relay registry, each identity key maps to at
most one endpoint, and processing `Register(k)` from remote address `a`
makes the registry map `k` to `a`, replacing any prior entry. -/
theorem c7_registry_at_most_one (db : ConnectionDb) (hr : RelayReachable db) :
    FunctionalDb db ∧
    ∀ (sess : RelaySession) (k : Key),
      List.lookup k (processRegister sess db k).1 = some sess.addr := by
  constructor
  · induction hr with
    | init =>
      intro k a a' ha _
      simp at ha
    | register sess k db hdb ih => exact dbInsert_functional db k sess.addr ih
  · intro sess k
    exact lookup_dbInsert db k sess.addr

/-- C7 witness: after two registrations of key 5 the registry maps 5 to
the later address. -/
theorem c7_registry_at_most_one_witness :
    List.lookup 5 (processRegister ⟨2, 7⟩ (processRegister ⟨9, 1⟩ [] 5).1 5).1 = some 2 :=
  (c7_registry_at_most_one (processRegister ⟨9, 1⟩ [] 5).1
    (RelayReachable.register ⟨9, 1⟩ 5 [] RelayReachable.init)).2 ⟨2, 7⟩ 5

/-- C8 counterexample: a `GetUser` for an unregistered key makes the
relay's handler panic (`result.unwrap()`), so the relay fails instead of
replying `UserAddress(None)`. -/
theorem c8_counterexample :
    processGetUser ⟨3, 0⟩ [] [] 9 = Out.panic ∧
    processGetUser ⟨3, 0⟩ [] [] 9 ≠ Out.ok ⟨[RelayResponse.UserAddress none], []⟩ := by
  decide

/-- C8 amended: when the target is registered and its endpoint has a
notification channel, the relay replies `UserAddress(Some endpoint)` and
pushes `Call(caller address)` on the callee's channel (which the
callee's loop forwards as `AwaitConnection`); when the target is not
registered the handler panics and no reply is made. -/
theorem c8_getuser_behaviour (sess : RelaySession) (a : Addr) (ch : Nat) (target : Key)
    (connT : ConnectionDb) (notifyT : NotifyDb) (k : Key) (t : ConnectionDb) :
    processGetUser sess ((target, a) :: connT) ((a, ch) :: notifyT) target =
      Out.ok ⟨[RelayResponse.UserAddress (some a)], [(ch, NotifyMsg.Call sess.addr)]⟩ ∧
    processGetUser sess [] [] target = Out.panic ∧
    processNotify ((k, a) :: t) (NotifyMsg.Call a) =
      Out.ok (RelayResponse.AwaitConnection k a) := by
  refine ⟨?_, rfl, ?_⟩
  · simp [processGetUser, List.lookup]
  · simp [processNotify, List.filter]

/-- C9 counterexample: the connection manager's pre-loop trace is empty —
no `Register` precedes the command loop — and `Register` never occurs in
a whole run's relay-bound sends. -/
theorem c9_counterexample :
    connManagerPreLoopSends 5 = [] ∧
    RelayRequest.Register 5 ∉
      connManagerSends 5 [ConnInstruction.GetUser 3, ConnInstruction.GetUser 5] :=
  ⟨rfl, by decide⟩

/-- C9 amended: after the relay handshake the connection manager sends
nothing before entering its command loop (no `Register`, no awaited
`Ack`), and every relay-bound message of a run is a `GetUser`. -/
theorem c9_never_registers (k : Key) (instrs : List ConnInstruction) :
    connManagerPreLoopSends k = [] ∧
    ∀ r, r ∈ connManagerSends k instrs → ∃ t, r = RelayRequest.GetUser t := by
  refine ⟨rfl, ?_⟩
  intro r hr
  unfold connManagerSends connManagerPreLoopSends at hr
  simp only [List.nil_append, List.mem_flatten, List.mem_map] at hr
  obtain ⟨l, ⟨i, hi, hl⟩, hrl⟩ := hr
  cases i with
  | GetUser t =>
    refine ⟨t, ?_⟩
    rw [← hl] at hrl
    simpa [connManagerLoopSends] using hrl
  | Send str =>
    rw [← hl] at hrl
    simp [connManagerLoopSends] at hrl

/-- C9 witness: the amended theorem applied to a one-command run. -/
theorem c9_never_registers_witness :
    connManagerPreLoopSends 2 = [] ∧ ∃ t, RelayRequest.GetUser 7 = RelayRequest.GetUser t :=
  ⟨(c9_never_registers 2 [ConnInstruction.GetUser 7]).1,
   (c9_never_registers 2 [ConnInstruction.GetUser 7]).2 (RelayRequest.GetUser 7) (by decide)⟩

/-- C10: handling `GimmeFile` requires a previously handled `ShareFile`
on the session: with `sent_invite = None` the handler panics
(`upload_file` unwraps the absent invite); with an invite present (and a
live connection) it streams the file; and handling a `ShareFile` is
exactly what makes `sent_invite` `Some`. -/
theorem c10_gimme_requires_share (key : Key) (st : PeerState) (bytes : List Nat) :
    (st.sent_invite = none →
      handle_incoming_packet key st bytes PeerPacket.GimmeFile = Out.panic) ∧
    (∀ fh, st.sent_invite = some fh → st.conn = true →
      handle_incoming_packet key st bytes PeerPacket.GimmeFile = Out.ok ⟨st, bytes, []⟩) ∧
    (∀ (path nm : String) (fb : List Nat) (sn : Option String),
      ((send_file_invite st path nm fb sn).1).sent_invite =
        some ⟨path, ⟨nm, fb.length, get_hash_from_file fb, sn⟩⟩) := by
  refine ⟨?_, ?_, ?_⟩
  · intro hnone
    simp [handle_incoming_packet, upload_file, hnone]
  · intro fh hsome hconn
    simp [handle_incoming_packet, upload_file, hsome, hconn]
  · intro path nm fb sn
    simp [send_file_invite]

/-- C10 witness: the theorem applied to concrete session states. -/
theorem c10_gimme_requires_share_witness :
    handle_incoming_packet 0 ⟨true, none, none⟩ [1, 2] PeerPacket.GimmeFile = Out.panic ∧
    handle_incoming_packet 0 ⟨true, some sampleHandle, none⟩ [1, 2] PeerPacket.GimmeFile =
      Out.ok ⟨⟨true, some sampleHandle, none⟩, [1, 2], []⟩ ∧
    ((send_file_invite ⟨true, none, none⟩ samplePath sampleFileName [5] none).1).sent_invite =
      some ⟨samplePath, ⟨sampleFileName, [5].length, get_hash_from_file [5], none⟩⟩ :=
  ⟨(c10_gimme_requires_share 0 ⟨true, none, none⟩ [1, 2]).1 rfl,
   (c10_gimme_requires_share 0 ⟨true, some sampleHandle, none⟩ [1, 2]).2.1 sampleHandle rfl rfl,
   (c10_gimme_requires_share 0 ⟨true, none, none⟩ [1, 2]).2.2 samplePath sampleFileName [5] none⟩

end Aluminum
